import Mathlib

set_option maxHeartbeats 1000000

namespace Kuechenschlacht

/-!  Shallow embedding of the Küchenschlacht data pipeline.

The definitions below are translated from the repository sources:
`data_cleaning.py` (validity filter, derived flags, episode aggregation),
`extraction.py` (expected candidate count, retry merge, order/rank merge,
final JSON assembly) and `dataframe_conversion.py` (`json_to_rows`).
-/

/-! ## Data cleaning (src/data_cleaning.py) -/

/-- Lower-casing a string character by character, as `pandas.Series.str.lower`
applied to an (ASCII) Python string. -/
def pyLower (s : String) : String := String.mk (s.data.map Char.toLower)

/-- One row of the raw candidate table `output/kuechenschlacht_data.csv`, with
the columns the cleaning script reads.  `Season` and `Episode` are the group
keys; `Order of Probing` and `Ranking number` are nullable numeric columns
(`none` models pandas `NaN`). -/
structure Row where
  season : Int
  episode : Int
  candGender : Option String
  modGender : Option String
  probing : Option Int
  ranking : Option Int
deriving DecidableEq, Repr

/-- The groupby key of a row: the pair of Season and Episode. -/
def keyR (r : Row) : Int × Int := (r.season, r.episode)

/-- The rows of one `(Season, Episode)` group, in table order (pandas
`groupby` preserves the within-group row order). -/
def group (rows : List Row) (k : Int × Int) : List Row :=
  rows.filter (fun r => decide (keyR r = k))

/-- The non-null `Ranking number` values of one episode (pandas `count` and
`nunique` both ignore `NaN`). -/
def rankVals (rows : List Row) (k : Int × Int) : List Int :=
  (group rows k).filterMap Row.ranking

/-- The non-null `Order of Probing` values of one episode. -/
def probVals (rows : List Row) (k : Int × Int) : List Int :=
  (group rows k).filterMap Row.probing

/-- The per-episode duplicate test of the cleaning script: the column has a
duplicate iff `nunique < count`, i.e. iff the number of distinct non-null
values is smaller than the number of non-null values. -/
def hasDupB (l : List Int) : Bool := decide (l.dedup.length < l.length)

/-- An episode lands in `episodes_to_drop` iff its `Order of Probing` or its
`Ranking number` column has duplicates among the non-null values. -/
def episodeBad (rows : List Row) (k : Int × Int) : Bool :=
  hasDupB (probVals rows k) || hasDupB (rankVals rows k)

/-- The drop step: keep exactly the rows whose episode is not in
`episodes_to_drop` (the left merge of the script on the key followed by
keeping the rows whose drop marker is missing). -/
def cleanRows (rows : List Row) : List Row :=
  rows.filter (fun r => !(episodeBad rows (keyR r)))

theorem hasDupB_eq_false_iff (l : List Int) : hasDupB l = false ↔ l.Nodup := by
  unfold hasDupB
  simp only [decide_eq_false_iff_not, not_lt]
  constructor
  · intro h
    have hsub : l.dedup.Sublist l := l.dedup_sublist
    have hlen : l.dedup.length = l.length := le_antisymm hsub.length_le h
    have hde : l.dedup = l := hsub.eq_of_length hlen
    rw [← hde]
    exact l.nodup_dedup
  · intro h
    rw [List.dedup_eq_self.mpr h]

theorem episodeBad_eq_false_iff (rows : List Row) (k : Int × Int) :
    episodeBad rows k = false ↔
      ((rankVals rows k).Nodup ∧ (probVals rows k).Nodup) := by
  unfold episodeBad
  rw [Bool.or_eq_false_iff, hasDupB_eq_false_iff, hasDupB_eq_false_iff]
  tauto

/-- C2: a row survives the validity filter iff its episode has no duplicate
among the non-null ranking values and none among the non-null probing-order
values; surviving rows are kept unchanged and in order (the output is a
sublist of the input). -/
theorem cleaning_drops_exactly_duplicate_episodes (rows : List Row) (r : Row) :
    (cleanRows rows).Sublist rows ∧
    (r ∈ cleanRows rows ↔
      (r ∈ rows ∧ (rankVals rows (keyR r)).Nodup ∧ (probVals rows (keyR r)).Nodup)) := by
  constructor
  · exact List.filter_sublist rows
  · unfold cleanRows
    rw [List.mem_filter]
    rw [Bool.not_eq_true']
    rw [episodeBad_eq_false_iff]

theorem group_cleanRows (rows : List Row) (k : Int × Int) :
    group (cleanRows rows) k =
      (if episodeBad rows k then [] else group rows k) := by
  unfold cleanRows group
  rw [List.filter_filter]
  by_cases hbad : episodeBad rows k
  · rw [if_pos hbad]
    rw [List.filter_eq_nil_iff]
    intro r _
    by_cases hk : keyR r = k
    · simp [hk, hbad]
    · simp [hk]
  · rw [if_neg hbad]
    apply List.filter_congr
    intro r _
    by_cases hk : keyR r = k
    · simp [hk, Bool.not_eq_true] at hbad ⊢
      exact hbad
    · simp [hk]

/-- C1 (amended): for every episode retained in the cleaned table, the
non-null ranking values are pairwise distinct and the non-null probing-order
values are pairwise distinct.  (Coverage of the full range 1..N and absence
of nulls are not checked by the script; see the counterexample.) -/
theorem cleaned_episode_values_nodup (rows : List Row) (k : Int × Int) :
    (rankVals (cleanRows rows) k).Nodup ∧ (probVals (cleanRows rows) k).Nodup := by
  unfold rankVals probVals
  rw [group_cleanRows]
  by_cases hbad : episodeBad rows k
  · rw [if_pos hbad]
    simp
  · rw [if_neg hbad]
    have h := (episodeBad_eq_false_iff rows k).mp (Bool.not_eq_true _ ▸ hbad)
    exact ⟨h.1, h.2⟩

/-- A single-candidate episode whose only ranking value is 5 and whose only
probing-order value is 1. -/
def demoRowC1 : Row :=
  { season := 2024, episode := 1, candGender := some "w", modGender := none,
    probing := some 1, ranking := some 5 }

/-- C1 counterexample: the episode `(2024, 1)` has no duplicates, so the
validity filter retains it unchanged, yet its candidate count is `N = 1`
while its only ranking value is 5 rather than 1: the cleaned table does not
guarantee that the ranking values cover the range 1..N. -/
theorem cleaned_rankings_not_a_range_counterexample :
    cleanRows [demoRowC1] = [demoRowC1] ∧
    (group (cleanRows [demoRowC1]) (2024, 1)).length = 1 ∧
    rankVals (cleanRows [demoRowC1]) (2024, 1) = [5] ∧
    rankVals (cleanRows [demoRowC1]) (2024, 1) ≠ [1] := by
  refine ⟨by decide, by decide, by decide, by decide⟩

/-! ### Derived flags (winner / eliminated) -/

/-- The max_ranking column: the per-episode maximum of the ranking column
(pandas max skips nulls; an all-null group yields null, here `none`). -/
def maxRanking (rows : List Row) (k : Int × Int) : Option Int :=
  (rankVals rows k).max?

/-- The winner column: 1 when the ranking equals 1, else 0; a null
ranking compares unequal to 1 in pandas. -/
def winnerFlag (r : Row) : Int := if r.ranking = some 1 then 1 else 0

/-- The eliminated column: 1 when the ranking equals max_ranking, else 0;
a null on either side compares unequal in pandas. -/
def eliminatedFlag (rows : List Row) (r : Row) : Int :=
  match maxRanking rows (keyR r) with
  | none => 0
  | some m => if r.ranking = some m then 1 else 0

/-- C5: on the cleaned table, `winner = 1` exactly when the ranking of the
row is 1 and `eliminated = 1` exactly when the ranking of the row equals the
maximum ranking of its (Season, Episode) group; both flags are 0 otherwise. -/
theorem winner_eliminated_flags (tbl : List Row) (r : Row)
    (_hr : r ∈ cleanRows tbl) :
    (winnerFlag r = 1 ↔ r.ranking = some 1) ∧
    (winnerFlag r = 0 ↔ r.ranking ≠ some 1) ∧
    (eliminatedFlag (cleanRows tbl) r = 1 ↔
      (∃ m, maxRanking (cleanRows tbl) (keyR r) = some m ∧ r.ranking = some m)) ∧
    (eliminatedFlag (cleanRows tbl) r = 0 ↔
      ¬ (∃ m, maxRanking (cleanRows tbl) (keyR r) = some m ∧ r.ranking = some m)) := by
  refine ⟨?_, ?_, ?_, ?_⟩
  · unfold winnerFlag
    split <;> simp_all
  · unfold winnerFlag
    split <;> simp_all
  · unfold eliminatedFlag
    split
    · simp_all
    · rename_i m hm
      constructor
      · intro h
        split at h
        · rename_i hrk
          exact ⟨m, hm, hrk⟩
        · simp at h
      · rintro ⟨m', hm', hrk⟩
        rw [hm] at hm'
        rw [Option.some_inj] at hm'
        subst hm'
        simp [hrk]
  · unfold eliminatedFlag
    split
    · simp_all
    · rename_i m hm
      constructor
      · intro h
        split at h
        · simp at h
        · rename_i hrk
          rintro ⟨m', hm', hrk'⟩
          rw [hm] at hm'
          rw [Option.some_inj] at hm'
          subst hm'
          exact hrk hrk'
      · intro h
        split
        · rename_i hrk
          exact absurd ⟨m, hm, hrk⟩ h
        · rfl

/-- Concrete instance for `winner_eliminated_flags`: a two-row episode with
rankings 1 and 2; the rank-1 row is the winner and not eliminated. -/
theorem winner_eliminated_flags_witness :
    winnerFlag demoRowC1 = 0 ∧
    eliminatedFlag (cleanRows [demoRowC1]) demoRowC1 = 1 := by
  have h := winner_eliminated_flags [demoRowC1] demoRowC1 (by decide)
  refine ⟨h.2.1.mpr (by decide), h.2.2.1.mpr ⟨5, by decide, by decide⟩⟩

/-! ### Episode-level aggregation (binary derived columns) -/

/-- The female_cand column: 1 when the lower-cased candidate gender equals
the letter w, else 0; a null gender compares unequal. -/
def femaleCand (r : Row) : Int :=
  if r.candGender.map pyLower = some "w" then 1 else 0

/-- The pandas first aggregation: the first non-null value of the column
within the group. -/
def firstNonNull (l : List (Option String)) : Option String :=
  (l.filterMap id).head?

/-- `female_winner`: first value of `female_cand` over the rows of the
episode with `winner == 1`, left-merged onto the episode table, nulls
filled with 0. -/
def femaleWinnerCol (rows : List Row) (k : Int × Int) : Int :=
  ((((group rows k).filter (fun r => decide (winnerFlag r = 1))).head?).map femaleCand).getD 0

/-- `female_eliminated`: same construction over rows with `eliminated == 1`. -/
def femaleEliminatedCol (rows : List Row) (k : Int × Int) : Int :=
  ((((group rows k).filter (fun r => decide (eliminatedFlag rows r = 1))).head?).map femaleCand).getD 0

/-- `female_moderator`: first non-null moderator gender of the episode,
compared lower-cased against the letter w (a null result compares unequal,
giving 0). -/
def femaleModeratorCol (rows : List Row) (k : Int × Int) : Int :=
  match firstNonNull ((group rows k).map Row.modGender) with
  | some g => if pyLower g = "w" then 1 else 0
  | none => 0

/-- `first_probing_winner`: first value of `winner` over the rows of the
episode whose probing order equals 1, left-merged, nulls filled with 0. -/
def firstProbingWinnerCol (rows : List Row) (k : Int × Int) : Int :=
  ((((group rows k).filter (fun r => decide (r.probing = some 1))).head?).map winnerFlag).getD 0

/-- `first_probing_eliminated`: same with the `eliminated` flag. -/
def firstProbingEliminatedCol (rows : List Row) (k : Int × Int) : Int :=
  ((((group rows k).filter (fun r => decide (r.probing = some 1))).head?).map
    (eliminatedFlag rows)).getD 0

/-- `max_probing`: per-episode maximum of `Order of Probing` (skips `NaN`). -/
def maxProbing (rows : List Row) (k : Int × Int) : Option Int :=
  (probVals rows k).max?

/-- `last_probing_winner`: first value of `winner` over the rows of the
episode whose probing order equals `max_probing`, left-merged, nulls filled
with 0. -/
def lastProbingWinnerCol (rows : List Row) (k : Int × Int) : Int :=
  match maxProbing rows k with
  | none => 0
  | some m =>
    ((((group rows k).filter (fun r => decide (r.probing = some m))).head?).map winnerFlag).getD 0

/-- `last_probing_eliminated`: same with the `eliminated` flag. -/
def lastProbingEliminatedCol (rows : List Row) (k : Int × Int) : Int :=
  match maxProbing rows k with
  | none => 0
  | some m =>
    ((((group rows k).filter (fun r => decide (r.probing = some m))).head?).map
      (eliminatedFlag rows)).getD 0

theorem head_filter_none_of_all {p : Row → Bool} {l : List Row}
    (h : ∀ r ∈ l, p r = false) : (l.filter p).head? = none := by
  have : l.filter p = [] := List.filter_eq_nil_iff.mpr (by
    intro r hr
    rw [h r hr]
    simp)
  rw [this]
  rfl

/-- C8: each of the seven binary derived episode columns defaults to 0
(never null) when the episode has no row satisfying the corresponding
condition: no winner row, no eliminated row, no female moderator gender, no
row probed first, no non-null probing order at all. -/
theorem binary_episode_columns_default_zero (tbl : List Row) (k : Int × Int) :
    ((∀ r ∈ group (cleanRows tbl) k, winnerFlag r ≠ 1) →
      femaleWinnerCol (cleanRows tbl) k = 0) ∧
    ((∀ r ∈ group (cleanRows tbl) k, eliminatedFlag (cleanRows tbl) r ≠ 1) →
      femaleEliminatedCol (cleanRows tbl) k = 0) ∧
    ((∀ r ∈ group (cleanRows tbl) k, ∀ g, r.modGender = some g → pyLower g ≠ "w") →
      femaleModeratorCol (cleanRows tbl) k = 0) ∧
    ((∀ r ∈ group (cleanRows tbl) k, r.probing ≠ some 1) →
      firstProbingWinnerCol (cleanRows tbl) k = 0 ∧
      firstProbingEliminatedCol (cleanRows tbl) k = 0) ∧
    ((∀ r ∈ group (cleanRows tbl) k, ∀ m, maxProbing (cleanRows tbl) k = some m →
        r.probing ≠ some m) →
      lastProbingWinnerCol (cleanRows tbl) k = 0 ∧
      lastProbingEliminatedCol (cleanRows tbl) k = 0) := by
  set rows := cleanRows tbl with hrows
  refine ⟨?_, ?_, ?_, ?_, ?_⟩
  · intro h
    unfold femaleWinnerCol
    rw [head_filter_none_of_all (by intro r hr; simpa using h r hr)]
    rfl
  · intro h
    unfold femaleEliminatedCol
    rw [head_filter_none_of_all (by intro r hr; simpa using h r hr)]
    rfl
  · intro h
    unfold femaleModeratorCol
    cases hfn : firstNonNull ((group rows k).map Row.modGender) with
    | none => rfl
    | some g =>
      unfold firstNonNull at hfn
      have hg : g ∈ ((group rows k).map Row.modGender).filterMap id := by
        cases hl : ((group rows k).map Row.modGender).filterMap id with
        | nil => rw [hl] at hfn; simp at hfn
        | cons a t =>
          rw [hl] at hfn
          simp at hfn
          subst hfn
          exact List.mem_cons_self _ _
      rw [List.mem_filterMap] at hg
      obtain ⟨og, hog, hid⟩ := hg
      rw [List.mem_map] at hog
      obtain ⟨r, hrmem, hrg⟩ := hog
      have : pyLower g ≠ "w" := by
        apply h r hrmem
        rw [hrg]
        simpa using hid
      simp [this]
  · intro h
    constructor
    · unfold firstProbingWinnerCol
      rw [head_filter_none_of_all (by intro r hr; simpa using h r hr)]
      rfl
    · unfold firstProbingEliminatedCol
      rw [head_filter_none_of_all (by intro r hr; simpa using h r hr)]
      rfl
  · intro h
    constructor
    · unfold lastProbingWinnerCol
      cases hmp : maxProbing rows k with
      | none => rfl
      | some m =>
        have hnone := head_filter_none_of_all
          (l := group rows k) (p := fun r => decide (r.probing = some m))
          (by intro r hr
              simp only [decide_eq_false_iff_not]
              exact h r hr m hmp)
        simp [hnone]
    · unfold lastProbingEliminatedCol
      cases hmp : maxProbing rows k with
      | none => rfl
      | some m =>
        have hnone := head_filter_none_of_all
          (l := group rows k) (p := fun r => decide (r.probing = some m))
          (by intro r hr
              simp only [decide_eq_false_iff_not]
              exact h r hr m hmp)
        simp [hnone]

/-- Concrete instance for `binary_episode_columns_default_zero`: on the empty
table every hypothesis is vacuous and all seven columns evaluate to 0. -/
theorem binary_episode_columns_default_zero_witness :
    femaleWinnerCol (cleanRows []) (2024, 1) = 0 ∧
    femaleEliminatedCol (cleanRows []) (2024, 1) = 0 ∧
    femaleModeratorCol (cleanRows []) (2024, 1) = 0 ∧
    firstProbingWinnerCol (cleanRows []) (2024, 1) = 0 ∧
    firstProbingEliminatedCol (cleanRows []) (2024, 1) = 0 ∧
    lastProbingWinnerCol (cleanRows []) (2024, 1) = 0 ∧
    lastProbingEliminatedCol (cleanRows []) (2024, 1) = 0 := by
  obtain ⟨h1, h2, h3, h4, h5⟩ := binary_episode_columns_default_zero [] (2024, 1)
  have hempty : group (cleanRows []) (2024, 1) = [] := by decide
  refine ⟨h1 ?_, h2 ?_, h3 ?_, (h4 ?_).1, (h4 ?_).2, (h5 ?_).1, (h5 ?_).2⟩ <;>
    (rw [hempty]; intro r hr; simp at hr)

/-! ## Extraction (src/extraction.py, `extract_show_info_chatgpt`) -/

/-- Python `str.strip()` on a character list: drop leading and trailing
whitespace. -/
def pyStrip (l : List Char) : List Char :=
  ((l.dropWhile Char.isWhitespace).reverse.dropWhile Char.isWhitespace).reverse

/-- `name.strip().lower()`: the normalized key used by the merge step. -/
def nameKey (s : String) : List Char := (pyStrip s.data).map Char.toLower

/-- Python substring containment `needle in hay`. -/
def containsSub (hay needle : List Char) : Bool :=
  match hay with
  | [] => needle.isEmpty
  | c :: t => needle.isPrefixOf (c :: t) || containsSub t needle

/-- Helper for Python `str.split()`: accumulate the current word (reversed)
while scanning. -/
def wordsAux : List Char → List Char → List (List Char)
  | [], acc => if acc.isEmpty then [] else [acc.reverse]
  | c :: rest, acc =>
    if c.isWhitespace then
      if acc.isEmpty then wordsAux rest [] else acc.reverse :: wordsAux rest []
    else wordsAux rest (c :: acc)

/-- Python `str.split()` with no argument: split on whitespace runs,
discarding empty pieces. -/
def pyWords (l : List Char) : List (List Char) := wordsAux l []

/-- `name.split()[0]` (the merge step only evaluates this on non-empty
stripped names, where the index is in range). -/
def firstWord (l : List Char) : List Char := (pyWords l).headD []

/-- A candidate record from the identity pass (step 1): the fields carried
through the merge unchanged. -/
structure Cand where
  name : String
  gender : String
  dish : String
deriving DecidableEq, Repr

/-- A result record from the order/rank pass (step 2); `probing_order` and
`ranking` are `none` when the JSON lacks the key. -/
structure RResult where
  name : String
  probing_order : Option Int
  ranking : Option Int
deriving DecidableEq, Repr

/-- A candidate after the merge step, with `probing_order` and `ranking`
attached. -/
structure MergedCand where
  cand : Cand
  probing_order : Option Int
  ranking : Option Int
deriving DecidableEq, Repr

/-- The merge condition of step 3, one boolean expression per result:
exact equality, substring containment in either direction, or first-name
equality guarded by the candidate name containing a space. -/
def matchesB (rn cn : List Char) : Bool :=
  rn == cn || containsSub cn rn || containsSub rn cn ||
    (cn.contains ' ' && (firstWord rn == firstWord cn))

/-- One pass of the inner result loop: a result participates iff its
stripped, lower-cased name is non-empty and the merge condition holds. -/
def matchPred (cn : List Char) (r : RResult) : Bool :=
  !(nameKey r.name).isEmpty && matchesB (nameKey r.name) cn

/-- The inner loop of the merge: the first result in list order satisfying
`matchPred` (the loop `break`s at the first hit). -/
def findMatch (cn : List Char) (results : List RResult) : Option RResult :=
  results.find? (matchPred cn)

/-- The body of the outer candidate loop: attach `probing_order` and
`ranking` of the matched result, or null both fields when the candidate
name is empty or no result matches. -/
def mergeOne (results : List RResult) (c : Cand) : MergedCand :=
  if (nameKey c.name).isEmpty then ⟨c, none, none⟩
  else
    match findMatch (nameKey c.name) results with
    | some r => ⟨c, r.probing_order, r.ranking⟩
    | none => ⟨c, none, none⟩

/-- Step 3 of `extract_show_info_chatgpt`: when step 2 returned no results,
every candidate gets null fields; otherwise each candidate is merged
independently against the full result list. -/
def mergeStep (cands : List Cand) (results : List RResult) : List MergedCand :=
  if results.isEmpty then cands.map (fun c => ⟨c, none, none⟩)
  else cands.map (mergeOne results)

/-- The merge condition as a proposition, spelling out the three criteria
as a plain disjunction. -/
def SpecMatches (rn cn : List Char) : Prop :=
  rn = cn ∨ containsSub cn rn = true ∨ containsSub rn cn = true ∨
    (cn.contains ' ' = true ∧ firstWord rn = firstWord cn)

/-- A result is accepted for a candidate key iff its own key is non-empty
and some criterion holds. -/
def ResultMatches (cn : List Char) (r : RResult) : Prop :=
  nameKey r.name ≠ [] ∧ SpecMatches (nameKey r.name) cn

theorem resultMatches_iff (cn : List Char) (r : RResult) :
    ResultMatches cn r ↔ matchPred cn r = true := by
  unfold ResultMatches SpecMatches matchPred matchesB
  simp [List.isEmpty_iff, Bool.or_eq_true, Bool.and_eq_true]
  intro _
  tauto

theorem find?_append_cons {α : Type} (p : α → Bool) (pre post : List α) (r : α)
    (hpre : ∀ x ∈ pre, p x = false) (hr : p r = true) :
    List.find? p (pre ++ r :: post) = some r := by
  induction pre with
  | nil => simp [List.find?_cons, hr]
  | cons a t ih =>
    have ha : p a = false := hpre a (List.mem_cons_self a t)
    simp only [List.cons_append, List.find?_cons, ha]
    exact ih (fun x hx => hpre x (List.mem_cons_of_mem a hx))

theorem mergeOne_nil (c : Cand) : mergeOne [] c = ⟨c, none, none⟩ := by
  unfold mergeOne findMatch
  split <;> rfl

theorem mergeStep_eq_map (cands : List Cand) (results : List RResult) :
    mergeStep cands results = cands.map (mergeOne results) := by
  unfold mergeStep
  split
  · rename_i hres
    have hnil : results = [] := List.isEmpty_iff.mp hres
    subst hnil
    apply List.map_congr_left
    intro c _
    rw [mergeOne_nil]
  · rfl

/-- C3 (amended): in the merge step each candidate is matched by a single
scan over the result list: the first result (in list order) whose non-empty
key satisfies any one of the three criteria — exact equality, substring
containment in either direction, or guarded first-name equality — wins,
with no priority between the criteria; a candidate matched by no result
gets null `probing_order` and `ranking`. -/
theorem merge_first_match_any_criterion (cands : List Cand) (results : List RResult)
    (i : Nat) (c : Cand) (hic : cands[i]? = some c)
    (hne : nameKey c.name ≠ []) :
    ((∀ r ∈ results, ¬ ResultMatches (nameKey c.name) r) →
      (mergeStep cands results)[i]? = some ⟨c, none, none⟩) ∧
    (∀ pre r post, results = pre ++ r :: post →
      (∀ rr ∈ pre, ¬ ResultMatches (nameKey c.name) rr) →
      ResultMatches (nameKey c.name) r →
      (mergeStep cands results)[i]? = some ⟨c, r.probing_order, r.ranking⟩) := by
  have hnemp : (nameKey c.name).isEmpty = false := by
    cases hnk : nameKey c.name with
    | nil => exact absurd hnk hne
    | cons a t => rfl
  constructor
  · intro hnone
    rw [mergeStep_eq_map, List.getElem?_map, hic]
    have hfm : findMatch (nameKey c.name) results = none := by
      unfold findMatch
      rw [List.find?_eq_none]
      intro r hr hp
      exact hnone r hr ((resultMatches_iff _ _).mpr hp)
    simp only [Option.map_some']
    unfold mergeOne
    rw [hnemp]
    simp only [Bool.false_eq_true, if_false, hfm]
  · intro pre r post hres hpre hr
    rw [mergeStep_eq_map, List.getElem?_map, hic]
    have hfm : findMatch (nameKey c.name) results = some r := by
      unfold findMatch
      rw [hres]
      refine find?_append_cons _ pre post r ?_ ((resultMatches_iff _ _).mp hr)
      intro x hx
      refine Bool.eq_false_iff.mpr ?_
      intro hp
      exact hpre x hx ((resultMatches_iff _ _).mpr hp)
    simp only [Option.map_some']
    unfold mergeOne
    rw [hnemp]
    simp only [Bool.false_eq_true, if_false, hfm]

/-- Tiered matcher following the wording of the claim: try a
case-insensitive exact match over the whole result list first, then (only
if none exists) substring containment, then (only if neither exists)
first-name equality.  Used only for comparison with the single-pass matcher
of the source. -/
def findMatchSpec (cn : List Char) (results : List RResult) : Option RResult :=
  match results.find? (fun r => !(nameKey r.name).isEmpty && (nameKey r.name == cn)) with
  | some r => some r
  | none =>
    match results.find? (fun r => !(nameKey r.name).isEmpty &&
        (containsSub cn (nameKey r.name) || containsSub (nameKey r.name) cn)) with
    | some r => some r
    | none => results.find? (fun r => !(nameKey r.name).isEmpty &&
        (cn.contains ' ' && (firstWord (nameKey r.name) == firstWord cn)))

def annaCandC3 : Cand := ⟨"Anna Schmidt", "w", "Suppe"⟩

def annaResultsC3 : List RResult :=
  [⟨"Anna", some 2, some 2⟩, ⟨"Anna Schmidt", some 1, some 1⟩]

/-- C3 counterexample: candidate "Anna Schmidt" against results
["Anna" (order 2), "Anna Schmidt" (order 1)].  The code attaches order 2:
the earlier result "Anna" wins by substring containment even though an
exact match exists later in the list, while the tiered priority of the
claim would pick the exact match with order 1. -/
theorem merge_priority_counterexample :
    (mergeStep [annaCandC3] annaResultsC3).map MergedCand.probing_order = [some 2] ∧
    findMatchSpec (nameKey annaCandC3.name) annaResultsC3 =
      some ⟨"Anna Schmidt", some 1, some 1⟩ ∧
    (some 2 : Option Int) ≠ some 1 :=
  ⟨by decide, by decide, by decide⟩

def bobCand : Cand := ⟨"Bob", "m", "Salat"⟩

def bobResult : RResult := ⟨"Bob", some 1, some 2⟩

/-- Concrete instance for `merge_first_match_any_criterion`: a single
candidate "Bob" matched exactly by the single result "Bob". -/
theorem merge_first_match_any_criterion_witness :
    (mergeStep [bobCand] [bobResult])[0]? = some ⟨bobCand, some 1, some 2⟩ := by
  refine (merge_first_match_any_criterion [bobCand] [bobResult] 0 bobCand
    (by decide) (by decide)).2 [] bobResult [] rfl ?_ ?_
  · intro rr hrr
    simp at hrr
  · unfold ResultMatches SpecMatches
    exact ⟨by decide, Or.inl rfl⟩

/-- C4 (amended): the merge never consumes a result: each candidate is
matched independently against the full result list, so a single result that
is the first match of several candidates is attached to all of them. -/
theorem merge_result_not_consumed (cands : List Cand) (results : List RResult)
    (r : RResult) (i j : Nat) (ci cj : Cand)
    (hi : cands[i]? = some ci) (hj : cands[j]? = some cj)
    (hnei : nameKey ci.name ≠ []) (hnej : nameKey cj.name ≠ [])
    (hfi : findMatch (nameKey ci.name) results = some r)
    (hfj : findMatch (nameKey cj.name) results = some r) :
    (mergeStep cands results)[i]? = some ⟨ci, r.probing_order, r.ranking⟩ ∧
    (mergeStep cands results)[j]? = some ⟨cj, r.probing_order, r.ranking⟩ := by
  have hone : ∀ (c : Cand), nameKey c.name ≠ [] →
      findMatch (nameKey c.name) results = some r →
      mergeOne results c = ⟨c, r.probing_order, r.ranking⟩ := by
    intro c hne hfm
    have hnemp : (nameKey c.name).isEmpty = false := by
      cases hnk : nameKey c.name with
      | nil => exact absurd hnk hne
      | cons a t => rfl
    unfold mergeOne
    rw [hnemp]
    simp only [Bool.false_eq_true, if_false, hfm]
  constructor
  · rw [mergeStep_eq_map, List.getElem?_map, hi, Option.map_some']
    rw [hone ci hnei hfi]
  · rw [mergeStep_eq_map, List.getElem?_map, hj, Option.map_some']
    rw [hone cj hnej hfj]

def annaCandsC4 : List Cand :=
  [⟨"Anna Schmidt", "w", "Suppe"⟩, ⟨"Anna Weber", "w", "Braten"⟩]

def annaResultC4 : List RResult := [⟨"Anna", some 1, some 1⟩]

/-- C4 counterexample: the single result "Anna" first matches candidate
"Anna Schmidt" and is nevertheless also matched to the later candidate
"Anna Weber" — both merged rows carry its probing order and ranking. -/
theorem merge_result_reuse_counterexample :
    mergeStep annaCandsC4 annaResultC4 =
      [⟨⟨"Anna Schmidt", "w", "Suppe"⟩, some 1, some 1⟩,
       ⟨⟨"Anna Weber", "w", "Braten"⟩, some 1, some 1⟩] := by decide

/-- Concrete instance for `merge_result_not_consumed`: both Anna candidates
receive the fields of the single result "Anna". -/
theorem merge_result_not_consumed_witness :
    (mergeStep annaCandsC4 annaResultC4)[0]? =
      some ⟨⟨"Anna Schmidt", "w", "Suppe"⟩, some 1, some 1⟩ ∧
    (mergeStep annaCandsC4 annaResultC4)[1]? =
      some ⟨⟨"Anna Weber", "w", "Braten"⟩, some 1, some 1⟩ :=
  merge_result_not_consumed annaCandsC4 annaResultC4 ⟨"Anna", some 1, some 1⟩ 0 1
    ⟨"Anna Schmidt", "w", "Suppe"⟩ ⟨"Anna Weber", "w", "Braten"⟩
    (by decide) (by decide) (by decide) (by decide) (by decide) (by decide)

/-! ### Expected candidate count (lines 70-89 of extraction.py) -/

/-- The per-episode metadata hints of `metadata_parser.py`; `none` models a
key that is absent or `None`. -/
structure Metadata where
  num_candidates : Option Int
  juror_name : Option String
  juror_gender : Option String
  moderator_name : Option String
  moderator_gender : Option String
deriving DecidableEq, Repr

/-- `candidates_by_day.get(day_num, 5)` over `weekday()` values
(Monday = 0, ..., Sunday = 6). -/
def candidatesByDay (d : Nat) : Int :=
  match d with
  | 0 => 6
  | 1 => 5
  | 2 => 4
  | 3 => 3
  | 4 => 2
  | _ => 5

/-- The num_candidates hint when metadata is truthy, else null. -/
def metaHint (md : Option Metadata) : Option Int := md.bind Metadata.num_candidates

/-- The expected candidate count: the metadata hint when truthy (non-zero),
otherwise the day-of-week table applied to the weekday of the parsed date,
with 5 when strptime fails (`weekday = none`). -/
def expectedCandidates (md : Option Metadata) (weekday : Option Nat) : Int :=
  match metaHint md with
  | some n =>
    if n = 0 then
      match weekday with
      | some d => candidatesByDay d
      | none => 5
    else n
  | none =>
    match weekday with
    | some d => candidatesByDay d
    | none => 5

/-- C6: the expected candidate count equals the metadata hint when present
and non-zero; otherwise it follows the weekday table Monday→6, Tuesday→5,
Wednesday→4, Thursday→3, Friday→2, and is 5 for Saturday, Sunday, or an
unparseable date. -/
theorem expected_candidates_rule (md : Option Metadata) (wd : Option Nat) :
    (∀ n : Int, metaHint md = some n → n ≠ 0 → expectedCandidates md wd = n) ∧
    ((metaHint md = none ∨ metaHint md = some 0) →
      ((wd = some 0 → expectedCandidates md wd = 6) ∧
       (wd = some 1 → expectedCandidates md wd = 5) ∧
       (wd = some 2 → expectedCandidates md wd = 4) ∧
       (wd = some 3 → expectedCandidates md wd = 3) ∧
       (wd = some 4 → expectedCandidates md wd = 2) ∧
       (wd = some 5 → expectedCandidates md wd = 5) ∧
       (wd = some 6 → expectedCandidates md wd = 5) ∧
       (wd = none → expectedCandidates md wd = 5))) := by
  constructor
  · intro n hn hnz
    unfold expectedCandidates
    rw [hn]
    simp [hnz]
  · intro hz
    have hrep : expectedCandidates md wd =
        (match wd with
         | some d => candidatesByDay d
         | none => 5) := by
      unfold expectedCandidates
      rcases hz with hz | hz <;> (rw [hz]; try simp)
    refine ⟨?_, ?_, ?_, ?_, ?_, ?_, ?_, ?_⟩
    all_goals (intro hwd; rw [hrep, hwd]; try decide)

/-- Concrete instance for `expected_candidates_rule`: a metadata hint of 4
wins over the weekday, and without a hint a Monday show expects 6. -/
theorem expected_candidates_rule_witness :
    expectedCandidates (some ⟨some 4, none, none, none, none⟩) (some 0) = 4 ∧
    expectedCandidates none (some 0) = 6 := by
  constructor
  · exact (expected_candidates_rule (some ⟨some 4, none, none, none, none⟩)
      (some 0)).1 4 rfl (by decide)
  · exact ((expected_candidates_rule none (some 0)).2 (Or.inl rfl)).1 rfl

/-! ### Reconciliation retry merge (lines 252-263 of extraction.py) -/

/-- The lower-cased candidate name: the key used for the retry
deduplication (no strip here, unlike the merge step). -/
def retryKey (c : Cand) : List Char := c.name.data.map Char.toLower

/-- The retry merge: `existing_names` of the already-found candidates, then
append exactly the retry candidates whose lower-cased name is not among
them (`candidates.extend(new_candidates)`). -/
def mergeRetryCandidates (candidates additional : List Cand) : List Cand :=
  candidates ++ additional.filter
    (fun c => !(decide (retryKey c ∈ candidates.map retryKey)))

/-- C7: a retry candidate is kept iff its case-folded name differs from
the name of every already-found candidate; the kept ones are appended after
the existing candidates.  In particular 4 found names plus a distinct 5th retry
name merge to exactly 5 names without duplicates. -/
theorem retry_merge_dedup (cands add : List Cand) :
    (∀ c : Cand, c ∈ mergeRetryCandidates cands add ↔
      (c ∈ cands ∨ (c ∈ add ∧ retryKey c ∉ cands.map retryKey))) ∧
    (∀ c5 : Cand, cands.length = 4 → (cands.map retryKey).Nodup →
      retryKey c5 ∉ cands.map retryKey →
      (mergeRetryCandidates cands [c5]).length = 5 ∧
      ((mergeRetryCandidates cands [c5]).map retryKey).Nodup) := by
  constructor
  · intro c
    unfold mergeRetryCandidates
    rw [List.mem_append, List.mem_filter]
    simp
  · intro c5 hlen hnd hnew
    have heq : mergeRetryCandidates cands [c5] = cands ++ [c5] := by
      unfold mergeRetryCandidates
      congr 1
      rw [List.filter_cons]
      simp [hnew]
    rw [heq]
    constructor
    · simp [hlen]
    · rw [List.map_append]
      rw [List.nodup_append]
      refine ⟨hnd, List.nodup_singleton _, ?_⟩
      intro a ha hb
      simp only [List.map_cons, List.map_nil, List.mem_singleton] at hb
      subst hb
      exact hnew ha

/-- Concrete instance for `retry_merge_dedup`: four names from the identity
pass plus a distinct fifth from the retry give five unique names. -/
theorem retry_merge_dedup_witness :
    (mergeRetryCandidates
      [⟨"Max", "m", "a"⟩, ⟨"Lisa", "w", "b"⟩, ⟨"Tom", "m", "c"⟩, ⟨"Ines", "w", "d"⟩]
      [⟨"Eva", "w", "e"⟩]).length = 5 ∧
    ((mergeRetryCandidates
      [⟨"Max", "m", "a"⟩, ⟨"Lisa", "w", "b"⟩, ⟨"Tom", "m", "c"⟩, ⟨"Ines", "w", "d"⟩]
      [⟨"Eva", "w", "e"⟩]).map retryKey).Nodup :=
  (retry_merge_dedup
    [⟨"Max", "m", "a"⟩, ⟨"Lisa", "w", "b"⟩, ⟨"Tom", "m", "c"⟩, ⟨"Ines", "w", "d"⟩]
    [⟨"Eva", "w", "e"⟩]).2 ⟨"Eva", "w", "e"⟩ (by decide) (by decide) (by decide)

/-! ### Final per-episode JSON assembly (lines 39-62 and 418-439) -/

/-- A juror or moderator entry of the merged JSON. -/
structure Person where
  name : String
  gender : String
deriving DecidableEq, Repr

/-- Python truthiness of an optional name: `None` and the empty string are
falsy. -/
def truthyName (o : Option String) : Option String :=
  match o with
  | some s => if s = "" then none else some s
  | none => none

/-- `juror_from_metadata`: built only when the metadata supplies a truthy
`juror_name`; the gender is the juror_gender hint, the letter m when the
metadata supplies none. -/
def jurorFromMetadata (md : Option Metadata) : Option Person :=
  match md with
  | none => none
  | some m =>
    match truthyName m.juror_name with
    | some n => some ⟨n, m.juror_gender.getD "m"⟩
    | none => none

/-- `moderator_from_metadata`, same construction as the juror. -/
def moderatorFromMetadata (md : Option Metadata) : Option Person :=
  match md with
  | none => none
  | some m =>
    match truthyName m.moderator_name with
    | some n => some ⟨n, m.moderator_gender.getD "m"⟩
    | none => none

/-- The `final_data` JSON of a successful extraction. -/
structure FinalData where
  candidates : List MergedCand
  juror : Option Person
  moderator : Option Person
deriving DecidableEq, Repr

/-- The pure control flow of `extract_show_info_chatgpt`.  The two oracle
calls and the retry call are untrusted inputs: `step1` is the parsed
candidate list of the identity pass, `retryResp` the parsed retry list
(used only when too few candidates were returned), `step2` the parsed
order/rank results.  An empty identity pass returns `None`. -/
def candidatesAfterRetry (md : Option Metadata) (weekday : Option Nat)
    (step1 retryResp : List Cand) : List Cand :=
  if (step1.length : Int) < expectedCandidates md weekday then
    mergeRetryCandidates step1 retryResp
  else step1

def extractShowInfo (md : Option Metadata) (weekday : Option Nat)
    (step1 : List Cand) (retryResp : List Cand) (step2 : List RResult) :
    Option FinalData :=
  if step1.isEmpty then none
  else
    if (candidatesAfterRetry md weekday step1 retryResp).isEmpty then none
    else some ⟨mergeStep (candidatesAfterRetry md weekday step1 retryResp) step2,
      jurorFromMetadata md, moderatorFromMetadata md⟩

/-- C10: in every successfully produced episode JSON the juror and
moderator fields are functions of the metadata hints alone — identical
across arbitrary transcripts, weekdays and oracle responses — equal to the
metadata-derived persons, null when the metadata supplies no (truthy) name,
with gender defaulting to "m" when the metadata supplies a name but no
gender. -/
theorem juror_moderator_from_metadata_only (md : Option Metadata)
    (wd wd' : Option Nat) (s1 s1' rr rr' : List Cand) (s2 s2' : List RResult)
    (fd fd' : FinalData)
    (h : extractShowInfo md wd s1 rr s2 = some fd)
    (h' : extractShowInfo md wd' s1' rr' s2' = some fd') :
    (fd.juror = jurorFromMetadata md ∧ fd.moderator = moderatorFromMetadata md) ∧
    (fd.juror = fd'.juror ∧ fd.moderator = fd'.moderator) ∧
    (md = none → fd.juror = none ∧ fd.moderator = none) ∧
    (∀ m : Metadata, md = some m →
      (truthyName m.juror_name = none → fd.juror = none) ∧
      (truthyName m.moderator_name = none → fd.moderator = none) ∧
      (∀ n, truthyName m.juror_name = some n → m.juror_gender = none →
        fd.juror = some ⟨n, "m"⟩) ∧
      (∀ n, truthyName m.moderator_name = some n → m.moderator_gender = none →
        fd.moderator = some ⟨n, "m"⟩)) := by
  have hfields : ∀ (wd0 : Option Nat) (s10 rr0 : List Cand) (s20 : List RResult)
      (fd0 : FinalData), extractShowInfo md wd0 s10 rr0 s20 = some fd0 →
      fd0.juror = jurorFromMetadata md ∧ fd0.moderator = moderatorFromMetadata md := by
    intro wd0 s10 rr0 s20 fd0 h0
    unfold extractShowInfo at h0
    split at h0
    · exact absurd h0 (by simp)
    · split at h0
      · exact absurd h0 (by simp)
      · rw [Option.some_inj] at h0
        subst h0
        exact ⟨rfl, rfl⟩
  obtain ⟨hj, hm⟩ := hfields wd s1 rr s2 fd h
  obtain ⟨hj', hm'⟩ := hfields wd' s1' rr' s2' fd' h'
  refine ⟨⟨hj, hm⟩, ⟨hj.trans hj'.symm, hm.trans hm'.symm⟩, ?_, ?_⟩
  · intro hnone
    subst hnone
    exact ⟨hj, hm⟩
  · intro m hsome
    subst hsome
    refine ⟨?_, ?_, ?_, ?_⟩
    · intro htn
      rw [hj]
      simp [jurorFromMetadata, htn]
    · intro htn
      rw [hm]
      simp [moderatorFromMetadata, htn]
    · intro n htn hg
      rw [hj]
      simp [jurorFromMetadata, htn, hg]
    · intro n htn hg
      rw [hm]
      simp [moderatorFromMetadata, htn, hg]

/-- Concrete instance for `juror_moderator_from_metadata_only`: metadata
supplying only a juror name yields juror ("Alex", "m") and a null moderator
for two different oracle responses. -/
theorem juror_moderator_from_metadata_only_witness :
    (extractShowInfo (some ⟨none, some "Alex", none, none, none⟩) (some 0)
        [⟨"Bob", "m", "Salat"⟩] [] []).map FinalData.juror =
      some (some ⟨"Alex", "m"⟩) ∧
    (extractShowInfo (some ⟨none, some "Alex", none, none, none⟩) (some 0)
        [⟨"Bob", "m", "Salat"⟩] [] []).map FinalData.moderator = some none := by
  have h : extractShowInfo (some ⟨none, some "Alex", none, none, none⟩) (some 0)
      [⟨"Bob", "m", "Salat"⟩] [] [] =
      some ⟨[⟨⟨"Bob", "m", "Salat"⟩, none, none⟩], some ⟨"Alex", "m"⟩, none⟩ := by
    decide
  obtain ⟨⟨hj, hm⟩, -, -, hmd⟩ := juror_moderator_from_metadata_only
    (some ⟨none, some "Alex", none, none, none⟩) (some 0) (some 0)
    [⟨"Bob", "m", "Salat"⟩] [⟨"Bob", "m", "Salat"⟩] [] [] [] []
    ⟨[⟨⟨"Bob", "m", "Salat"⟩, none, none⟩], some ⟨"Alex", "m"⟩, none⟩
    ⟨[⟨⟨"Bob", "m", "Salat"⟩, none, none⟩], some ⟨"Alex", "m"⟩, none⟩ h h
  have hjv := (hmd ⟨none, some "Alex", none, none, none⟩ rfl).2.2.1 "Alex" rfl rfl
  rw [h]
  exact ⟨by rw [Option.map_some', hjv], by rw [Option.map_some', hm]; decide⟩

/-! ## DataFrame conversion (src/dataframe_conversion.py, `json_to_rows`) -/

/-- A JSON leaf value as it occurs in the extraction files. -/
inductive JVal where
  | jnull
  | jstr (s : String)
  | jint (n : Int)
deriving DecidableEq, Repr

/-- A JSON object as a Python dict: association list of key/value pairs. -/
abbrev JDict := List (String × JVal)

/-- Python `dict.get(key, default)`. -/
def dictGet (d : JDict) (k : String) (dflt : JVal) : JVal :=
  match d.find? (fun p => p.1 == k) with
  | some p => p.2
  | none => dflt

/-- Whether a dict carries a key at all. -/
def hasKey (d : JDict) (k : String) : Bool :=
  (d.find? (fun p => p.1 == k)).isSome

/-- The value of the `moderator` / `juror` key of an extraction JSON: the
key may be absent, explicitly `null` (as `extract_show_info_chatgpt` writes
when the metadata supplies nothing), or an object. -/
inductive JField where
  | absent
  | null
  | obj (d : JDict)
deriving DecidableEq, Repr

/-- An extraction JSON as read by `json_to_rows`; a missing `candidates`
key is modelled by the empty list (the dict-get default). -/
structure ExtractionJson where
  moderator : JField
  juror : JField
  candidates : List JDict
deriving DecidableEq, Repr

/-- Reading the moderator or juror key with an empty-dict default,
followed by attribute access: an absent key gives the empty dict, an
explicit null raises AttributeError on the first dict-get call, an object
is used as is. -/
def resolveDict : JField → Except String JDict
  | .absent => .ok []
  | .null => .error "AttributeError"
  | .obj d => .ok d

/-- One output row of `json_to_rows`, with the 15 columns of the script. -/
structure ConvRow where
  dateOfShow : String
  season : Option Int
  episode : Option Int
  moderatorName : JVal
  moderatorGender : JVal
  candidateName : JVal
  candidateGender : JVal
  candidateAge : JVal
  candidateLocation : JVal
  candidateProfession : JVal
  dish : JVal
  juror : JVal
  jurorGender : JVal
  orderOfProbing : JVal
  rankingNumber : JVal
deriving DecidableEq, Repr

/-- The row dict built for one candidate: defaults are the empty string for
every text field and `probing_order`/`ranking`, but `None` for the age. -/
def rowOf (date : String) (season episode : Option Int) (mo ju : JDict)
    (c : JDict) : ConvRow :=
  { dateOfShow := date
    season := season
    episode := episode
    moderatorName := dictGet mo "name" (.jstr "")
    moderatorGender := dictGet mo "gender" (.jstr "")
    candidateName := dictGet c "name" (.jstr "")
    candidateGender := dictGet c "gender" (.jstr "")
    candidateAge := dictGet c "age" .jnull
    candidateLocation := dictGet c "location" (.jstr "")
    candidateProfession := dictGet c "profession" (.jstr "")
    dish := dictGet c "dish" (.jstr "")
    juror := dictGet ju "name" (.jstr "")
    jurorGender := dictGet ju "gender" (.jstr "")
    orderOfProbing := dictGet c "probing_order" (.jstr "")
    rankingNumber := dictGet c "ranking" (.jstr "") }

/-- `DataFrameConverter.json_to_rows`: one row per candidate.  The
moderator/juror dict is only touched inside the candidate loop, so a `null`
value raises only when at least one candidate exists. -/
def json_to_rows (d : ExtractionJson) (date : String)
    (season episode : Option Int) : Except String (List ConvRow) :=
  match d.candidates with
  | [] => .ok []
  | _ =>
    match resolveDict d.moderator, resolveDict d.juror with
    | .error e, _ => .error e
    | .ok _, .error e => .error e
    | .ok mo, .ok ju => .ok (d.candidates.map (rowOf date season episode mo ju))

/-- Whether an `Except` result is a success. -/
def exceptIsOk : Except String (List ConvRow) → Bool
  | .ok _ => true
  | .error _ => false

/-- An extraction JSON with `moderator: null` — exactly what the extractor
writes when the metadata has no moderator — and one candidate. -/
def nullModJson : ExtractionJson :=
  ⟨JField.null, JField.absent, [[("name", JVal.jstr "Max")]]⟩

/-- C9 counterexample: on a JSON whose `moderator` field is `null` and which
has one candidate, `json_to_rows` raises AttributeError (attribute access
on a null moderator) instead of returning one row per candidate. -/
theorem json_to_rows_null_moderator_counterexample :
    exceptIsOk (json_to_rows nullModJson "2024-01-08" none none) = false ∧
    nullModJson.candidates.length = 1 := ⟨by decide, by decide⟩

/-- C9 (amended): whenever the `moderator` and `juror` fields are not
explicit `null`s (absent or objects), `json_to_rows` returns exactly one
row per element of `candidates`, in input order; the episode-level fields
are identical across the rows; a candidate dict lacking `probing_order` or
`ranking` yields the empty string in those columns and a lacking `age` key
yields null. -/
theorem json_to_rows_spec (d : ExtractionJson) (date : String)
    (season episode : Option Int)
    (hmo : d.moderator ≠ JField.null) (hju : d.juror ≠ JField.null) :
    ∃ rows, json_to_rows d date season episode = .ok rows ∧
      rows.length = d.candidates.length ∧
      (∀ i : Nat, ∀ c : JDict, d.candidates[i]? = some c →
        ∃ row, rows[i]? = some row ∧
          row.dateOfShow = date ∧ row.season = season ∧ row.episode = episode ∧
          row.candidateName = dictGet c "name" (.jstr "") ∧
          (hasKey c "probing_order" = false → row.orderOfProbing = .jstr "") ∧
          (hasKey c "ranking" = false → row.rankingNumber = .jstr "") ∧
          (hasKey c "age" = false → row.candidateAge = .jnull)) ∧
      (∀ r1 ∈ rows, ∀ r2 ∈ rows,
        r1.moderatorName = r2.moderatorName ∧
        r1.moderatorGender = r2.moderatorGender ∧
        r1.juror = r2.juror ∧ r1.jurorGender = r2.jurorGender) := by
  have hdefault : ∀ (c : JDict) (k : String) (dflt : JVal),
      hasKey c k = false → dictGet c k dflt = dflt := by
    intro c k dflt hk
    unfold hasKey at hk
    unfold dictGet
    cases hfind : c.find? (fun p => p.1 == k) with
    | none => rfl
    | some p => rw [hfind] at hk; simp at hk
  obtain ⟨mo, hmo'⟩ : ∃ mo, resolveDict d.moderator = .ok mo := by
    cases hcase : d.moderator with
    | absent => exact ⟨[], rfl⟩
    | null => exact absurd hcase hmo
    | obj dd => exact ⟨dd, rfl⟩
  obtain ⟨ju, hju'⟩ : ∃ ju, resolveDict d.juror = .ok ju := by
    cases hcase : d.juror with
    | absent => exact ⟨[], rfl⟩
    | null => exact absurd hcase hju
    | obj dd => exact ⟨dd, rfl⟩
  have hrows : json_to_rows d date season episode =
      .ok (d.candidates.map (rowOf date season episode mo ju)) := by
    unfold json_to_rows
    cases hc : d.candidates with
    | nil => simp
    | cons c cs => rw [hmo', hju']
  refine ⟨d.candidates.map (rowOf date season episode mo ju), hrows, by simp, ?_, ?_⟩
  · intro i c hc
    refine ⟨rowOf date season episode mo ju c, ?_, rfl, rfl, rfl, rfl, ?_, ?_, ?_⟩
    · rw [List.getElem?_map, hc, Option.map_some']
    · intro hk
      exact hdefault c "probing_order" _ hk
    · intro hk
      exact hdefault c "ranking" _ hk
    · intro hk
      exact hdefault c "age" _ hk
  · intro r1 h1 r2 h2
    rw [List.mem_map] at h1 h2
    obtain ⟨c1, -, hr1⟩ := h1
    obtain ⟨c2, -, hr2⟩ := h2
    subst hr1
    subst hr2
    exact ⟨rfl, rfl, rfl, rfl⟩

/-- A two-candidate extraction JSON: the first candidate has every key, the
second lacks `probing_order`, `ranking` and `age`. -/
def demoJsonC9 : ExtractionJson :=
  ⟨JField.obj [("name", JVal.jstr "Moddy"), ("gender", JVal.jstr "m")],
   JField.absent,
   [[("name", JVal.jstr "Max"), ("age", JVal.jint 33),
     ("probing_order", JVal.jint 1), ("ranking", JVal.jint 2)],
    [("name", JVal.jstr "Lisa")]]⟩

/-- Concrete instance for `json_to_rows_spec`: the two-candidate JSON
converts successfully to two rows. -/
theorem json_to_rows_spec_witness :
    exceptIsOk (json_to_rows demoJsonC9 "2024-01-08" (some 2024) (some 3)) = true := by
  obtain ⟨rows, hok, -⟩ := json_to_rows_spec demoJsonC9 "2024-01-08"
    (some 2024) (some 3) (by decide) (by decide)
  rw [hok]
  rfl

end Kuechenschlacht
